import Mathlib

/-!
Shallow embedding of `src/tech_calendar/rebuild_calendar.py`.

The Python module reads a work-order spreadsheet, parses the report-period
cell into a set of date strings (`extract_dates_from_range`), builds the
column schema (`create_headers`), tags job comments (`extract_eng_circuit`)
and folds the data rows into a per-technician, per-slot bucket map which is
then projected to output rows (`process_rows`).  File I/O (openpyxl load and
save, `auto_size_columns`) is out of scope; the worksheet contents appear
here as explicit arguments (the report-period cell text and the list of data
rows), and the external `tech_info` lookup table is a parameter.

Strings are modelled as Lean `String` / `List Char`; Python `datetime.date`
values as year/month/day triples of naturals with the proleptic Gregorian
calendar rules that `datetime` implements (lexicographic comparison,
day-successor, validity, `toordinal`).  `set` becomes `Finset`,
`dict` becomes an insertion-ordered association list, and a Python
exception becomes an `Except` error value.
-/

/-- Calendar date, modelling Python `datetime.date`: a year/month/day triple. -/
structure Date where
  year : Nat
  month : Nat
  day : Nat
deriving DecidableEq

/-- Gregorian leap-year rule used by `datetime`. -/
def isLeap (y : Nat) : Prop := (y % 4 = 0 ∧ y % 100 ≠ 0) ∨ y % 400 = 0

instance (y : Nat) : Decidable (isLeap y) := by
  unfold isLeap; infer_instance

/-- Length of a month, as in `datetime` (`_days_in_month`).  The default arm
is never reached for months 1..12. -/
def daysInMonth (y m : Nat) : Nat :=
  if m = 2 then (if isLeap y then 29 else 28)
  else if m = 4 ∨ m = 6 ∨ m = 9 ∨ m = 11 then 30
  else 31

/-- The invariant of a constructible Python `datetime.date`:
`MINYEAR = 1 ≤ year ≤ MAXYEAR = 9999`, a real month and a real day. -/
def ValidDate (dt : Date) : Prop :=
  1 ≤ dt.year ∧ dt.year ≤ 9999 ∧ 1 ≤ dt.month ∧ dt.month ≤ 12 ∧
    1 ≤ dt.day ∧ dt.day ≤ daysInMonth dt.year dt.month

instance (dt : Date) : Decidable (ValidDate dt) := by
  unfold ValidDate; infer_instance

/-- Python `date` comparison `<=`: lexicographic on (year, month, day). -/
def dateLe (a b : Date) : Prop :=
  a.year < b.year ∨ (a.year = b.year ∧
    (a.month < b.month ∨ (a.month = b.month ∧ a.day ≤ b.day)))

/-- Python `date` comparison `<`: lexicographic on (year, month, day). -/
def dateLt (a b : Date) : Prop :=
  a.year < b.year ∨ (a.year = b.year ∧
    (a.month < b.month ∨ (a.month = b.month ∧ a.day < b.day)))

instance (a b : Date) : Decidable (dateLe a b) := by
  unfold dateLe; infer_instance

instance (a b : Date) : Decidable (dateLt a b) := by
  unfold dateLt; infer_instance

/-- `current_date + timedelta(days=1)` on valid dates: the calendar
successor of a day. -/
def nextDay (dt : Date) : Date :=
  if dt.day < daysInMonth dt.year dt.month then ⟨dt.year, dt.month, dt.day + 1⟩
  else if dt.month < 12 then ⟨dt.year, dt.month + 1, 1⟩
  else ⟨dt.year + 1, 1, 1⟩

/-- `datetime.date.max` (9999-12-31); adding one day to it raises
`OverflowError` in Python. -/
def maxDate : Date := ⟨9999, 12, 31⟩

/-- CPython `datetime._days_before_year`: days before January 1 of `y`,
counting from ordinal 0 = Dec 31 of year 0. -/
def daysBeforeYear (y : Nat) : Nat :=
  (y - 1) * 365 + (y - 1) / 4 - (y - 1) / 100 + (y - 1) / 400

/-- CPython `datetime._days_before_month` (table `_DAYS_BEFORE_MONTH` plus
the leap correction for months after February). -/
def daysBeforeMonth (y m : Nat) : Nat :=
  (if m = 2 then 31
   else if m = 3 then 59
   else if m = 4 then 90
   else if m = 5 then 120
   else if m = 6 then 151
   else if m = 7 then 181
   else if m = 8 then 212
   else if m = 9 then 243
   else if m = 10 then 273
   else if m = 11 then 304
   else if m = 12 then 334
   else 0)
  + (if 2 < m ∧ isLeap y then 1 else 0)

/-- CPython `date.toordinal` (`_ymd2ord`): 0001-01-01 has ordinal 1.
Day differences of Python dates (`(end - start).days`) are differences
of ordinals. -/
def toOrdinal (dt : Date) : Nat :=
  daysBeforeYear dt.year + daysBeforeMonth dt.year dt.month + dt.day

/-- Decimal digit as a character. -/
def digitChar (n : Nat) : Char := Char.ofNat (48 + n)

/-- Two-digit zero-padded decimal, as `strftime` `%m` / `%d`. -/
def pad2 (n : Nat) : List Char := [digitChar (n / 10), digitChar (n % 10)]

/-- Four-digit zero-padded decimal, as `strftime` `%Y` renders years up
to 9999. -/
def pad4 (n : Nat) : List Char :=
  [digitChar (n / 1000), digitChar (n / 100 % 10), digitChar (n / 10 % 10),
    digitChar (n % 10)]

/-- `d.strftime('%m/%d/%Y')`. -/
def render (dt : Date) : String :=
  ⟨pad2 dt.month ++ '/' :: pad2 dt.day ++ '/' :: pad4 dt.year⟩

/-- Longest prefix of decimal digits and the remainder. -/
def spanDigits : List Char → List Char × List Char
  | [] => ([], [])
  | c :: r =>
    if c.isDigit then
      let p := spanDigits r
      (c :: p.1, p.2)
    else ([], c :: r)

/-- Numeric value of a digit character. -/
def charVal (c : Char) : Nat := c.toNat - 48

/-- Numeric value of a digit string. -/
def digitsVal (l : List Char) : Nat := l.foldl (fun a c => a * 10 + charVal c) 0

/-- `datetime.strptime(s, '%m/%d/%Y').date()`: one-or-two-digit month and
day, four-digit year, `/` separators, nothing else; the resulting triple
must be a constructible `datetime.date` (otherwise `ValueError`,
i.e. `none`). -/
def parseDate (l : List Char) : Option Date :=
  match spanDigits l with
  | (ms, '/' :: r2) =>
    match spanDigits r2 with
    | (ds, '/' :: r4) =>
      match spanDigits r4 with
      | (ys, rest) =>
        if ms.length = 0 ∨ 2 < ms.length ∨ ds.length = 0 ∨ 2 < ds.length ∨
            ys.length ≠ 4 ∨ rest ≠ [] then none
        else if ValidDate ⟨digitsVal ys, digitsVal ms, digitsVal ds⟩ then
          some ⟨digitsVal ys, digitsVal ms, digitsVal ds⟩
        else none
    | _ => none
  | _ => none

/-- Python `\w` (ASCII range): letters, digits, underscore. -/
def isWordChar (c : Char) : Bool := c.isAlphanum || c == '_'

/-- Exactly `n` decimal digits from the front of `l`, with the remainder. -/
def takeDigits : Nat → List Char → Option (List Char × List Char)
  | 0, l => some ([], l)
  | _ + 1, [] => none
  | n + 1, c :: r =>
    if c.isDigit then
      match takeDigits n r with
      | some p => some (c :: p.1, p.2)
      | none => none
    else none

/-- Tail `\d{4}\b` of the date regex: four digits followed by a word
boundary (end of text or a non-word character). -/
def yearTail (l : List Char) : Option (List Char × List Char) :=
  match takeDigits 4 l with
  | some p =>
    match p.2 with
    | [] => some p
    | c :: _ => if isWordChar c then none else some p
  | none => none

/-- A literal `/` followed by the continuation `k`. -/
def slashThen (k : List Char → Option (List Char × List Char))
    (l : List Char) : Option (List Char × List Char) :=
  match l with
  | '/' :: r =>
    match k r with
    | some q => some ('/' :: q.1, q.2)
    | none => none
  | _ => none

/-- Greedy `\d{1,2}` followed by the continuation `k`: try two digits
first, and backtrack to one digit if the rest of the pattern fails —
exactly the backtracking behaviour of the Python regex engine. -/
def numThen (k : List Char → Option (List Char × List Char))
    (l : List Char) : Option (List Char × List Char) :=
  (match takeDigits 2 l with
   | some p =>
     match k p.2 with
     | some q => some (p.1 ++ q.1, q.2)
     | none => none
   | none => none) <|>
  (match takeDigits 1 l with
   | some p =>
     match k p.2 with
     | some q => some (p.1 ++ q.1, q.2)
     | none => none
   | none => none)

/-- One attempt to match `\d{1,2}/\d{1,2}/\d{4}\b` at the head of `l`
(the leading `\b` is checked by the scanner).  Returns the matched text
and the remainder after it. -/
def dateMatch (l : List Char) : Option (List Char × List Char) :=
  numThen (slashThen (numThen (slashThen yearTail))) l

/-- Left-to-right scanner of `re.findall(r'\b\d{1,2}/\d{1,2}/\d{4}\b', _)`:
at each position whose previous character is not a word character (the
leading `\b`; the first pattern character is a digit, so a word-character
on the left kills the boundary), attempt a match; on success, record it
and continue after its end, as `findall` returns non-overlapping matches.
`fuel` only bounds the recursion; `length + 1` steps always suffice since
every step consumes at least one character. -/
def findallGo : Nat → Bool → List Char → List (List Char)
  | 0, _, _ => []
  | _ + 1, _, [] => []
  | fuel + 1, prevWord, c :: rest =>
    if prevWord then findallGo fuel (isWordChar c) rest
    else
      match dateMatch (c :: rest) with
      | some p => p.1 :: findallGo fuel true p.2
      | none => findallGo fuel (isWordChar c) rest

/-- `re.findall(r'\b\d{1,2}/\d{1,2}/\d{4}\b', cell_value)`. -/
def findall (l : List Char) : List (List Char) := findallGo (l.length + 1) false l

/-- The exceptions that `extract_dates_from_range` can raise: the explicit
`ValueError` when the match count is not two (the spec's
`MalformedDateRangeError`), a `ValueError` escaping from `strptime`, and
the `OverflowError` from stepping a date past `date.max`. -/
inductive Err where
  | badCount
  | badDate
  | overflow
deriving DecidableEq

/-- Termination measure for the date loop: strictly decreases along
`nextDay` while `cur ≤ stop` holds. -/
def rangeMeasure (stop cur : Date) : Nat :=
  (stop.year + 2 - cur.year) * 4096 + (13 - cur.month) * 64 + (32 - cur.day)

/-- The body of the `while current_date <= end_date` loop in
`extract_dates_from_range`, lines 39-43, with an explicit structural fuel:
collect the current date, then `current_date += timedelta(days=1)` — which
raises `OverflowError` when `current_date` is `date.max`.  Returns the
dates visited, in order.  `dateRangeLoop` below runs it with enough fuel
for the whole range; `dateRangeLoop_eq` proves the fuel never runs out, so
`dateRangeLoop` satisfies exactly the recursion of the Python loop. -/
def dateRangeGo : Nat → Date → Date → Except Err (List Date)
  | 0, _, _ => Except.ok []
  | fuel + 1, stop, cur =>
    if dateLe cur stop then
      if cur = maxDate then Except.error Err.overflow
      else
        match dateRangeGo fuel stop (nextDay cur) with
        | Except.ok rest => Except.ok (cur :: rest)
        | Except.error e => Except.error e
    else Except.ok []

/-- The date-collection loop of lines 39-43 (see `dateRangeGo`). -/
def dateRangeLoop (stop cur : Date) : Except Err (List Date) :=
  dateRangeGo (rangeMeasure stop cur) stop cur

/-- `ExcelProcessor.extract_dates_from_range` (lines 27-45), applied to the
text of the report-period cell: find all `\b\d{1,2}/\d{1,2}/\d{4}\b`
matches, require exactly two, parse them positionally as start and end,
and collect `strftime('%m/%d/%Y')` renderings of every day from start to
end inclusive into a set. -/
def extract_dates_from_range (cellValue : List Char) : Except Err (Finset String) :=
  match findall cellValue with
  | [a, b] =>
    match parseDate a, parseDate b with
    | some startDate, some endDate =>
      match dateRangeLoop endDate startDate with
      | Except.ok l => Except.ok (l.map render).toFinset
      | Except.error e => Except.error e
    | _, _ => Except.error Err.badDate
  | _ => Except.error Err.badCount

/-- `ExcelProcessor.create_headers` (lines 47-51): the two identity labels
followed by `"{date} Morning", "{date} Afternoon"` for each date in
`sorted(dates)` — Python string sort, i.e. lexicographic order. -/
def create_headers (dates : Finset String) : List String :=
  ("Name") :: ("Tech #") ::
    (dates.sort (fun a b => a ≤ b)).flatMap
      (fun d => [d ++ (" Morning"), d ++ (" Afternoon")])

/-- All starting positions (in scan order) at which `ENG-\d+` matches,
together with the greedily matched text: `"ENG-"` followed by the maximal
run of digits.  `re.search` returns the first of these. -/
def engOccAt (s : List Char) (i : Nat) : Option (List Char) :=
  let t := s.drop i
  if t.take 4 = ("ENG-").data then
    let run := (t.drop 4).takeWhile Char.isDigit
    if run = [] then none else some (("ENG-").data ++ run)
  else none

/-- The `ENG-\d+` matches of `s`, leftmost first. -/
def engTermsIn (s : List Char) : List (List Char) :=
  (List.range s.length).filterMap (engOccAt s)

/-- Word boundary `\b` before position `i` of `s`: the wordness of the
character before `i` (start of text counts as non-word) differs from the
wordness of the character at `i` (end of text counts as non-word). -/
def boundaryAt (s : List Char) (i : Nat) : Bool :=
  (if i = 0 then false else
    match s[i - 1]? with
    | some c => isWordChar c
    | none => false)
  != (match s[i]? with
      | some c => isWordChar c
      | none => false)

/-- Match of `\b(a₁|a₂|…)\b` at position `i`: the leading boundary must
hold, and the first alternative (in the pattern's order — Python tries
alternatives left to right, not longest-first) that is literally present
at `i` and is followed by a word boundary wins. -/
def vocabOccAt (alts : List (List Char)) (s : List Char) (i : Nat) :
    Option (List Char) :=
  if boundaryAt s i then
    alts.find? (fun a => (s.drop i).take a.length == a && boundaryAt s (i + a.length))
  else none

/-- The matches of `\b(a₁|a₂|…)\b` in `s`, in scan order: positions left to
right, alternatives in pattern order at each position.  `re.search`
returns the first. -/
def vocabTermsIn (alts : List (List Char)) (s : List Char) : List (List Char) :=
  (List.range s.length).filterMap (vocabOccAt alts s)

/-- The circuit-type vocabulary of `circuit_pattern` (line 56), in the
pattern's alternative order. -/
def circuitAlts : List (List Char) :=
  [("FIA"), ("DIA"), ("DEDICATED INTERNET SERVICE"), ("CARRIER E-ACCESS"),
   ("HVOF"), ("HV"), ("HVOD"), ("SBB"), ("BENCH TEST"), ("FC+"), ("TRUNK"),
   ("MNS"), ("MRS"), ("MNE"), ("MANAGED NETWORK EDGE"), ("AGG SWITCH")].map String.data

/-- The action vocabulary of `action_pattern` (line 57), in the pattern's
alternative order. -/
def actionAlts : List (List Char) :=
  [("MW"), ("INSTALL"), ("PRE"), ("EQUIPMENT PU"), ("EQUIPMENT P/U"),
   ("EQUIP PU"), ("EQUIP P/U"), ("SWEEP")].map String.data

/-- `ExcelProcessor.extract_eng_circuit` (lines 53-69): `re.search` each of
the three patterns in the job comment (i.e. take the first match in scan
order, if any) and return `(eng, action, circuit_type)`, the empty string
standing for "no match". -/
def extract_eng_circuit (s : List Char) : List Char × List Char × List Char :=
  (((engTermsIn s).head?).getD [],
   ((vocabTermsIn actionAlts s).head?).getD [],
   ((vocabTermsIn circuitAlts s).head?).getD [])

/-- The date cell of a data row (`row[5]`): either a `datetime` object or
any other cell value, carried as the string it prints as. -/
inductive DateField where
  | dt (d : Date)
  | raw (s : String)
deriving DecidableEq

/-- One data row of the worksheet (from row 11 on), with the columns
`process_rows` reads: `row[2]` (tech number, as `str()`), `row[4]`
(address), `row[5]` (date), `row[6]` (timeslot), `row[7]` (job comment). -/
structure Row where
  techNum : String
  address : String
  dateField : DateField
  timeslot : String
  comment : String
deriving DecidableEq

/-- Line 87: `row[5].strftime('%m/%d/%Y') if isinstance(row[5], datetime)
else row[5]` — a non-datetime value is used as-is, never parsed. -/
def dateStrOf (r : Row) : String :=
  match r.dateField with
  | DateField.dt d => render d
  | DateField.raw s => s

/-- Python `"PM" in s`: substring containment. -/
def containsPM (s : List Char) : Bool :=
  (List.range s.length).any (fun i => (s.drop i).take 2 == [('P' : Char), 'M'])

/-- Line 94: `"Afternoon" if "PM" in timeslot.upper() else "Morning"`. -/
def timeCategory (timeslot : String) : String :=
  if containsPM (timeslot.data.map Char.toUpper) then ("Afternoon") else ("Morning")

/-- Line 95: `f"{date_str} {time_category}"`. -/
def dateHeaderOf (r : Row) : String :=
  dateStrOf r ++ (" ") ++ timeCategory r.timeslot

/-- Line 92: `f"{eng}\r\n{action} {circuit_type} {row[4]}\r\n {timeslot}"`,
the per-job text block. -/
def jobBlock (r : Row) : String :=
  let e := extract_eng_circuit r.comment.data
  String.mk e.1 ++ ("\r\n") ++ String.mk e.2.1 ++ (" ") ++ String.mk e.2.2 ++
    (" ") ++ r.address ++ ("\r\n ") ++ r.timeslot

/-- A technician's bucket dict, SlotHeader to accumulated text, modelled as
an insertion-ordered association list (Python dicts preserve insertion
order). -/
abbrev Bucket := List (String × String)

/-- The `tech_jobs` dict: technician id to bucket dict, in first-seen
order. -/
abbrev TechJobs := List (String × Bucket)

/-- Line 84: `{header: '' for header in headers[2:]}`. -/
def innerInit (headers2 : List String) : Bucket :=
  headers2.map (fun h => (h, ("")))

/-- Lines 97-100: if `date_header` is already a key, append the job block
to its value (line 98); otherwise insert it as a new key at the end
(line 100). -/
def innerAdd (inner : Bucket) (k v : String) : Bucket :=
  if (inner.lookup k).isSome then
    inner.map (fun p => if p.1 = k then (p.1, p.2 ++ v) else p)
  else inner ++ [(k, v)]

/-- Lines 82-100, one iteration of the row loop: ensure the technician's
bucket exists (initialised from the schema), then add this row's job block
under its computed `date_header`. -/
def processRow (headers2 : List String) (tj : TechJobs) (r : Row) : TechJobs :=
  let tj2 := if (tj.lookup r.techNum).isSome then tj
             else tj ++ [(r.techNum, innerInit headers2)]
  tj2.map (fun p =>
    if p.1 = r.techNum then (p.1, innerAdd p.2 (dateHeaderOf r) (jobBlock r))
    else p)

/-- The full row loop of lines 81-100. -/
def buildTechJobs (headers2 : List String) (rows : List Row) : TechJobs :=
  rows.foldl (processRow headers2) []

/-- Lines 103-105: one output row — display name from the external
`tech_info` lookup with default `'Unknown Tech'`, the tech number, then
the bucket values in schema column order.  Every schema key is present in
the bucket (initialised at first sight of the technician), so the `getD`
default is never taken. -/
def projectRow (techInfo : List (String × String)) (headers2 : List String)
    (p : String × Bucket) : List String :=
  ((techInfo.lookup p.1).getD ("Unknown Tech")) :: p.1 ::
    headers2.map (fun h => (p.2.lookup h).getD (""))

/-- `ExcelProcessor.process_rows` (lines 71-109) up to the saved cell
grid: extract the report-period date set from the designated cell, build
the headers, fold the data rows into `tech_jobs`, and emit the header row
followed by one projected row per technician.  Any exception from
`extract_dates_from_range` aborts the run. -/
def process_rows (techInfo : List (String × String)) (a7 : String)
    (rows : List Row) : Except Err (List (List String)) :=
  match extract_dates_from_range a7.data with
  | Except.error e => Except.error e
  | Except.ok dates =>
    let headers := create_headers dates
    let tj := buildTechJobs (headers.drop 2) rows
    Except.ok (headers :: tj.map (projectRow techInfo (headers.drop 2)))


/-- Observer on the `tech_jobs` state: the accumulated text of technician
`t` at slot key `h`, i.e. `tech_jobs[t][h]` when both keys exist. -/
def lookupBucket (tj : TechJobs) (t h : String) : Option String :=
  match tj.lookup t with
  | some inner => inner.lookup h
  | none => none

theorem daysInMonth_le (y m : Nat) : daysInMonth y m ≤ 31 := by
  unfold daysInMonth
  split <;> first
  | omega
  | (split <;> omega)

theorem daysInMonth_pos (y m : Nat) : 1 ≤ daysInMonth y m := by
  unfold daysInMonth
  split <;> first
  | omega
  | (split <;> omega)

theorem dateLe_year {a b : Date} (h : dateLe a b) : a.year ≤ b.year := by
  unfold dateLe at h; omega

theorem rangeMeasure_dec {stop cur : Date} (h : dateLe cur stop) :
    rangeMeasure stop (nextDay cur) < rangeMeasure stop cur := by
  have hy := dateLe_year h
  have h1 := daysInMonth_le cur.year cur.month
  have h2 := daysInMonth_pos cur.year cur.month
  unfold nextDay
  split
  · unfold rangeMeasure
    dsimp only
    omega
  · split
    · unfold rangeMeasure
      dsimp only
      omega
    · unfold rangeMeasure
      dsimp only
      omega

theorem rangeMeasure_pos {stop cur : Date} (h : dateLe cur stop) :
    1 ≤ rangeMeasure stop cur := by
  have := rangeMeasure_dec h
  omega

theorem dateRangeGo_congr :
    ∀ (f1 f2 : Nat) (stop cur : Date), rangeMeasure stop cur ≤ f1 →
      rangeMeasure stop cur ≤ f2 →
      dateRangeGo f1 stop cur = dateRangeGo f2 stop cur := by
  intro f1
  induction f1 with
  | zero =>
    intro f2 stop cur h1 h2
    have hnle : ¬ dateLe cur stop := by
      intro hle
      have := rangeMeasure_dec hle
      omega
    cases f2 with
    | zero => rfl
    | succ f2 =>
      unfold dateRangeGo
      rw [if_neg hnle]
  | succ f1 ih =>
    intro f2 stop cur h1 h2
    cases f2 with
    | zero =>
      have hnle : ¬ dateLe cur stop := by
        intro hle
        have := rangeMeasure_dec hle
        omega
      unfold dateRangeGo
      rw [if_neg hnle]
    | succ f2 =>
      unfold dateRangeGo
      by_cases hle : dateLe cur stop
      · rw [if_pos hle, if_pos hle]
        have hdec := rangeMeasure_dec hle
        rw [ih f2 stop (nextDay cur) (by omega) (by omega)]
      · rw [if_neg hle, if_neg hle]

theorem dateRangeGo_succ (fuel : Nat) (stop cur : Date) :
    dateRangeGo (fuel + 1) stop cur =
      if dateLe cur stop then
        if cur = maxDate then Except.error Err.overflow
        else
          match dateRangeGo fuel stop (nextDay cur) with
          | Except.ok rest => Except.ok (cur :: rest)
          | Except.error e => Except.error e
      else Except.ok [] := rfl

theorem dateRangeLoop_eq (stop cur : Date) :
    dateRangeLoop stop cur =
      if dateLe cur stop then
        if cur = maxDate then Except.error Err.overflow
        else
          match dateRangeLoop stop (nextDay cur) with
          | Except.ok rest => Except.ok (cur :: rest)
          | Except.error e => Except.error e
      else Except.ok [] := by
  show dateRangeGo (rangeMeasure stop cur) stop cur = _
  by_cases hle : dateLe cur stop
  · have hpos := rangeMeasure_pos hle
    have hdec := rangeMeasure_dec hle
    rw [show rangeMeasure stop cur = (rangeMeasure stop cur - 1) + 1 from by omega]
    rw [dateRangeGo_succ]
    rw [if_pos hle, if_pos hle]
    by_cases hmx : cur = maxDate
    · rw [if_pos hmx, if_pos hmx]
    · rw [if_neg hmx, if_neg hmx]
      rw [dateRangeGo_congr (rangeMeasure stop cur - 1)
        (rangeMeasure stop (nextDay cur)) stop (nextDay cur) (by omega) (by omega)]
      rfl
  · rw [if_neg hle]
    cases hm : rangeMeasure stop cur with
    | zero => rfl
    | succ n =>
      rw [dateRangeGo_succ]
      rw [if_neg hle]

set_option maxHeartbeats 1000000 in
theorem daysBeforeYear_succ {y : Nat} (hy : 1 ≤ y) :
    daysBeforeYear (y + 1) = daysBeforeYear y + (if isLeap y then 366 else 365) := by
  unfold daysBeforeYear
  by_cases h : isLeap y
  · rw [if_pos h]
    unfold isLeap at h
    omega
  · rw [if_neg h]
    unfold isLeap at h
    omega

theorem daysBeforeYear_mono {a b : Nat} (h : a ≤ b) :
    daysBeforeYear a ≤ daysBeforeYear b := by
  induction b, h using Nat.le_induction with
  | base => exact Nat.le_refl _
  | succ n hn ih =>
    rcases Nat.eq_zero_or_pos n with h0 | h1
    · subst h0
      have e1 : daysBeforeYear 1 = 0 := rfl
      have e0 : daysBeforeYear 0 = 0 := rfl
      omega
    · have hs := daysBeforeYear_succ h1
      by_cases h : isLeap n
      · rw [if_pos h] at hs
        omega
      · rw [if_neg h] at hs
        omega

theorem dbm_one (y : Nat) : daysBeforeMonth y 1 = 0 := by
  simp [daysBeforeMonth]

theorem dbm_succ {y m : Nat} (h1 : 1 ≤ m) (h2 : m ≤ 11) :
    daysBeforeMonth y (m + 1) = daysBeforeMonth y m + daysInMonth y m := by
  interval_cases m <;> by_cases h : isLeap y <;>
    simp [daysBeforeMonth, daysInMonth, h]

theorem dbm_twelve (y : Nat) :
    daysBeforeMonth y 12 + daysInMonth y 12 = if isLeap y then 366 else 365 := by
  by_cases h : isLeap y <;> simp [daysBeforeMonth, daysInMonth, h]

theorem dbm_add_day_le {y m d : Nat} (h1 : 1 ≤ m) (h2 : m ≤ 12)
    (h3 : d ≤ daysInMonth y m) :
    daysBeforeMonth y m + d ≤ if isLeap y then 366 else 365 := by
  interval_cases m <;> by_cases h : isLeap y <;>
    simp_all [daysBeforeMonth, daysInMonth] <;> omega

theorem dbm_mono {y m m' : Nat} (h1 : 1 ≤ m) (h2 : m ≤ m') (h3 : m' ≤ 12) :
    daysBeforeMonth y m ≤ daysBeforeMonth y m' := by
  revert h3
  induction m', h2 using Nat.le_induction with
  | base => intro _; exact Nat.le_refl _
  | succ n hn ih =>
    intro h3
    have hs := dbm_succ (y := y) (by omega : 1 ≤ n) (by omega : n ≤ 11)
    have hp := daysInMonth_pos y n
    have := ih (by omega)
    omega

theorem toOrdinal_next {dt : Date} (h : ValidDate dt) :
    toOrdinal (nextDay dt) = toOrdinal dt + 1 := by
  obtain ⟨y, m, d⟩ := dt
  obtain ⟨h1, h2, h3, h4, h5, h6⟩ := h
  unfold nextDay
  dsimp only at h1 h2 h3 h4 h5 h6 ⊢
  split
  · rename_i hd
    unfold toOrdinal
    dsimp only
    omega
  · split
    · rename_i hd hm
      unfold toOrdinal
      dsimp only
      have hs := dbm_succ (y := y) h3 (by omega : m ≤ 11)
      omega
    · rename_i hd hm
      have hm12 : m = 12 := by omega
      subst hm12
      unfold toOrdinal
      dsimp only
      have h31 : daysInMonth y 12 = 31 := by simp [daysInMonth]
      have ht := dbm_twelve y
      have hy := daysBeforeYear_succ (y := y) h1
      have h01 : daysBeforeMonth (y + 1) 1 = 0 := dbm_one (y + 1)
      by_cases hl : isLeap y
      · rw [if_pos hl] at ht hy
        omega
      · rw [if_neg hl] at ht hy
        omega

theorem nextDay_valid {dt : Date} (h : ValidDate dt) (hne : dt ≠ maxDate) :
    ValidDate (nextDay dt) := by
  obtain ⟨y, m, d⟩ := dt
  obtain ⟨h1, h2, h3, h4, h5, h6⟩ := h
  unfold nextDay
  dsimp only at h1 h2 h3 h4 h5 h6 ⊢
  split
  · rename_i hd
    unfold ValidDate
    dsimp only
    omega
  · split
    · rename_i hd hm
      have hp := daysInMonth_pos y (m + 1)
      unfold ValidDate
      dsimp only
      omega
    · rename_i hd hm
      have hm12 : m = 12 := by omega
      have h31 : daysInMonth y 12 = 31 := by simp [daysInMonth]
      have hy : y ≠ 9999 := by
        intro hy9
        apply hne
        subst hy9
        subst hm12
        unfold maxDate
        have hd31 : d = 31 := by omega
        subst hd31
        rfl
      have h131 : daysInMonth (y + 1) 1 = 31 := by simp [daysInMonth]
      unfold ValidDate
      dsimp only
      omega

theorem toOrdinal_pos {dt : Date} (h : ValidDate dt) : 1 ≤ toOrdinal dt := by
  obtain ⟨y, m, d⟩ := dt
  obtain ⟨h1, h2, h3, h4, h5, h6⟩ := h
  unfold toOrdinal
  dsimp only at h5 ⊢
  omega

theorem toOrdinal_lt {a b : Date} (ha : ValidDate a) (hb : ValidDate b)
    (h : dateLt a b) : toOrdinal a < toOrdinal b := by
  obtain ⟨ya, ma, da⟩ := a
  obtain ⟨yb, mb, db⟩ := b
  obtain ⟨a1, a2, a3, a4, a5, a6⟩ := ha
  obtain ⟨b1, b2, b3, b4, b5, b6⟩ := hb
  dsimp only at a1 a2 a3 a4 a5 a6 b1 b2 b3 b4 b5 b6
  unfold dateLt at h
  dsimp only at h
  unfold toOrdinal
  dsimp only
  rcases h with hy | ⟨hy, hm | ⟨hm, hd⟩⟩
  · have hb1 : daysBeforeMonth ya ma + da ≤ if isLeap ya then 366 else 365 :=
      dbm_add_day_le a3 a4 a6
    have hb2 := daysBeforeYear_succ a1
    have hb3 : daysBeforeYear (ya + 1) ≤ daysBeforeYear yb :=
      daysBeforeYear_mono (by omega)
    by_cases hl : isLeap ya
    · rw [if_pos hl] at hb1 hb2
      omega
    · rw [if_neg hl] at hb1 hb2
      omega
  · subst hy
    have hs := dbm_succ (y := ya) a3 (by omega : ma ≤ 11)
    have hmono : daysBeforeMonth ya (ma + 1) ≤ daysBeforeMonth ya mb :=
      dbm_mono (by omega) (by omega) b4
    omega
  · subst hy
    subst hm
    omega

theorem not_dateLe_iff_dateLt {a b : Date} : ¬ dateLe a b ↔ dateLt b a := by
  obtain ⟨ya, ma, da⟩ := a
  obtain ⟨yb, mb, db⟩ := b
  unfold dateLe dateLt
  dsimp only
  omega

theorem dateLe_iff_toOrdinal {a b : Date} (ha : ValidDate a) (hb : ValidDate b) :
    dateLe a b ↔ toOrdinal a ≤ toOrdinal b := by
  constructor
  · intro h
    rcases eq_or_ne a b with rfl | hne
    · exact Nat.le_refl _
    · refine Nat.le_of_lt (toOrdinal_lt ha hb ?_)
      obtain ⟨ya, ma, da⟩ := a
      obtain ⟨yb, mb, db⟩ := b
      have hne2 : ¬(ya = yb ∧ ma = mb ∧ da = db) := by
        intro he
        obtain ⟨e1, e2, e3⟩ := he
        subst e1
        subst e2
        subst e3
        exact hne rfl
      unfold dateLe at h
      unfold dateLt
      dsimp only at h ⊢
      omega
  · intro h
    by_contra hc
    have hlt : dateLt b a := not_dateLe_iff_dateLt.mp hc
    have := toOrdinal_lt hb ha hlt
    omega

theorem loop_ind (stop : Date) (P : Date → Prop)
    (step : ∀ cur, (dateLe cur stop → cur ≠ maxDate → P (nextDay cur)) → P cur) :
    ∀ cur, P cur := by
  have H : ∀ n cur, rangeMeasure stop cur ≤ n → P cur := by
    intro n
    induction n with
    | zero =>
      intro cur hn
      apply step
      intro hle _
      exfalso
      have := rangeMeasure_dec hle
      omega
    | succ k ih =>
      intro cur hn
      apply step
      intro hle _
      apply ih
      have := rangeMeasure_dec hle
      omega
  intro cur
  exact H (rangeMeasure stop cur) cur (Nat.le_refl _)

theorem dateLt_of_le_ne {a b : Date} (h : dateLe a b) (hne : a ≠ b) : dateLt a b := by
  obtain ⟨ya, ma, da⟩ := a
  obtain ⟨yb, mb, db⟩ := b
  have hne2 : ¬(ya = yb ∧ ma = mb ∧ da = db) := by
    intro he
    obtain ⟨e1, e2, e3⟩ := he
    subst e1
    subst e2
    subst e3
    exact hne rfl
  unfold dateLe at h
  unfold dateLt
  dsimp only at h ⊢
  omega

theorem dateRangeLoop_spec {stop : Date} (hstop : ValidDate stop) :
    ∀ cur, ValidDate cur → ∀ l, dateRangeLoop stop cur = Except.ok l →
      l.length = toOrdinal stop + 1 - toOrdinal cur ∧
      (∀ x ∈ l, ValidDate x ∧ toOrdinal cur ≤ toOrdinal x ∧ dateLe x stop) ∧
      l.Nodup ∧
      (dateLe cur stop → cur ∈ l ∧ stop ∈ l) := by
  refine loop_ind stop
    (fun cur => ValidDate cur → ∀ l, dateRangeLoop stop cur = Except.ok l →
      l.length = toOrdinal stop + 1 - toOrdinal cur ∧
      (∀ x ∈ l, ValidDate x ∧ toOrdinal cur ≤ toOrdinal x ∧ dateLe x stop) ∧
      l.Nodup ∧
      (dateLe cur stop → cur ∈ l ∧ stop ∈ l)) ?_
  intro cur IH hv l hok
  rw [dateRangeLoop_eq] at hok
  split at hok
  · rename_i hle
    split at hok
    · cases hok
    · rename_i hne
      have hvn : ValidDate (nextDay cur) := nextDay_valid hv hne
      have hord : toOrdinal (nextDay cur) = toOrdinal cur + 1 := toOrdinal_next hv
      have hcurle : toOrdinal cur ≤ toOrdinal stop := (dateLe_iff_toOrdinal hv hstop).mp hle
      cases hrec : dateRangeLoop stop (nextDay cur) with
      | error e =>
        rw [hrec] at hok
        cases hok
      | ok rest =>
        rw [hrec] at hok
        simp only [Except.ok.injEq] at hok
        subst hok
        obtain ⟨ihlen, ihmem, ihnd, ihin⟩ := IH hle hne hvn rest hrec
        refine ⟨?_, ?_, ?_, ?_⟩
        · simp only [List.length_cons]
          omega
        · intro x hx
          rcases List.mem_cons.mp hx with rfl | hx
          · exact ⟨hv, Nat.le_refl _, hle⟩
          · obtain ⟨hx1, hx2, hx3⟩ := ihmem x hx
            exact ⟨hx1, by omega, hx3⟩
        · refine List.nodup_cons.mpr ⟨?_, ihnd⟩
          intro hmem
          obtain ⟨_, hx2, _⟩ := ihmem cur hmem
          omega
        · intro _
          refine ⟨List.mem_cons_self _ _, ?_⟩
          rcases eq_or_ne cur stop with rfl | hnes
          · exact List.mem_cons_self _ _
          · have hlt : dateLt cur stop := dateLt_of_le_ne hle hnes
            have : toOrdinal cur < toOrdinal stop := toOrdinal_lt hv hstop hlt
            have hlen : dateLe (nextDay cur) stop :=
              (dateLe_iff_toOrdinal hvn hstop).mpr (by omega)
            exact List.mem_cons_of_mem _ ((ihin hlen).2)
  · rename_i hnle
    simp only [Except.ok.injEq] at hok
    subst hok
    have hlt : dateLt stop cur := not_dateLe_iff_dateLt.mp hnle
    have := toOrdinal_lt hstop hv hlt
    refine ⟨?_, ?_, List.nodup_nil, ?_⟩
    · simp only [List.length_nil]
      omega
    · intro x hx
      cases hx
    · intro hle
      exact absurd hle hnle

theorem dateRangeLoop_not_badCount (stop : Date) :
    ∀ cur, dateRangeLoop stop cur ≠ Except.error Err.badCount := by
  refine loop_ind stop
    (fun cur => dateRangeLoop stop cur ≠ Except.error Err.badCount) ?_
  intro cur IH
  rw [dateRangeLoop_eq]
  split
  · rename_i hle
    split
    · intro hcon
      injection hcon with he
      cases he
    · rename_i hne
      cases hrec : dateRangeLoop stop (nextDay cur) with
      | error e =>
        intro hcon
        dsimp only at hcon
        have h2 := IH hle hne
        dsimp only at h2
        rw [hrec] at h2
        exact h2 hcon
      | ok rest =>
        intro hcon
        cases hcon
  · intro hcon
    cases hcon

theorem digitChar_inj :
    ∀ a, a < 10 → ∀ b, b < 10 → digitChar a = digitChar b → a = b := by decide

theorem parseDate_valid {l : List Char} {dt : Date} (h : parseDate l = some dt) :
    ValidDate dt := by
  unfold parseDate at h
  split at h
  · split at h
    · split at h
      · split at h
        · cases h
        · split at h
          · rename_i hvd
            injection h with he
            subst he
            exact hvd
          · cases h
    · cases h
  · cases h

theorem render_inj {a b : Date} (ha : ValidDate a) (hb : ValidDate b)
    (h : render a = render b) : a = b := by
  obtain ⟨ya, ma, da⟩ := a
  obtain ⟨yb, mb, db⟩ := b
  obtain ⟨a1, a2, a3, a4, a5, a6⟩ := ha
  obtain ⟨b1, b2, b3, b4, b5, b6⟩ := hb
  dsimp only at a1 a2 a3 a4 a5 a6 b1 b2 b3 b4 b5 b6
  have hda : da ≤ 31 := Nat.le_trans a6 (daysInMonth_le _ _)
  have hdb : db ≤ 31 := Nat.le_trans b6 (daysInMonth_le _ _)
  unfold render pad2 pad4 at h
  dsimp only at h
  have h2 := congrArg String.data h
  simp only [List.cons_append, List.nil_append, List.cons.injEq, and_true] at h2
  obtain ⟨e1, e2, _, e3, e4, _, e5, e6, e7, e8⟩ := h2
  have g1 := digitChar_inj _ (by omega) _ (by omega) e1
  have g2 := digitChar_inj _ (by omega) _ (by omega) e2
  have g3 := digitChar_inj _ (by omega) _ (by omega) e3
  have g4 := digitChar_inj _ (by omega) _ (by omega) e4
  have g5 := digitChar_inj _ (by omega) _ (by omega) e5
  have g6 := digitChar_inj _ (by omega) _ (by omega) e6
  have g7 := digitChar_inj _ (by omega) _ (by omega) e7
  have g8 := digitChar_inj _ (by omega) _ (by omega) e8
  have : ya = yb := by omega
  have : ma = mb := by omega
  have : da = db := by omega
  subst_vars
  rfl

theorem lookup_map_ite {β : Type} (l : List (String × β)) (k : String) (f : β → β) :
    (l.map (fun p => if p.1 = k then (p.1, f p.2) else p)).lookup k = (l.lookup k).map f := by
  induction l with
  | nil => rfl
  | cons p t ih =>
    obtain ⟨a, v⟩ := p
    simp only [List.map_cons]
    by_cases hak : a = k
    · subst hak
      rw [if_pos rfl]
      rw [List.lookup_cons, List.lookup_cons]
      rw [beq_self_eq_true]
      rfl
    · rw [if_neg hak]
      rw [List.lookup_cons, List.lookup_cons]
      have : (k == a) = false := beq_eq_false_iff_ne.mpr (fun he => hak he.symm)
      rw [this]
      exact ih

theorem lookup_map_ite_ne {β : Type} (l : List (String × β)) {k k' : String}
    (f : β → β) (hne : k' ≠ k) :
    (l.map (fun p => if p.1 = k then (p.1, f p.2) else p)).lookup k' = l.lookup k' := by
  induction l with
  | nil => rfl
  | cons p t ih =>
    obtain ⟨a, v⟩ := p
    simp only [List.map_cons]
    by_cases hak : a = k
    · subst hak
      rw [if_pos rfl]
      rw [List.lookup_cons, List.lookup_cons]
      have : (k' == a) = false := beq_eq_false_iff_ne.mpr hne
      rw [this]
      exact ih
    · rw [if_neg hak]
      rw [List.lookup_cons, List.lookup_cons]
      cases k' == a
      · exact ih
      · rfl

theorem lookup_innerInit_mem {headers2 : List String} {h : String}
    (hm : h ∈ headers2) : (innerInit headers2).lookup h = some ("") := by
  induction headers2 with
  | nil => cases hm
  | cons a t ih =>
    unfold innerInit
    simp only [List.map_cons]
    rw [List.lookup_cons]
    by_cases hha : h = a
    · subst hha
      rw [beq_self_eq_true]
    · have : (h == a) = false := beq_eq_false_iff_ne.mpr hha
      rw [this]
      rcases List.mem_cons.mp hm with he | ht
      · exact absurd he hha
      · exact ih ht

theorem lookup_innerInit_not_mem {headers2 : List String} {h : String}
    (hm : h ∉ headers2) : (innerInit headers2).lookup h = none := by
  induction headers2 with
  | nil => rfl
  | cons a t ih =>
    unfold innerInit
    simp only [List.map_cons]
    rw [List.lookup_cons]
    have hha : h ≠ a := fun he => hm (he ▸ List.mem_cons_self a t)
    have : (h == a) = false := beq_eq_false_iff_ne.mpr hha
    rw [this]
    exact ih (fun ht => hm (List.mem_cons_of_mem a ht))

theorem innerAdd_lookup_self (inner : Bucket) (k v : String) :
    (innerAdd inner k v).lookup k =
      some (match inner.lookup k with
            | some w => w ++ v
            | none => v) := by
  unfold innerAdd
  split
  · rename_i hs
    have hm := lookup_map_ite inner k (fun x => x ++ v)
    try dsimp only at hm
    rw [hm]
    cases hl : inner.lookup k with
    | some w => rfl
    | none =>
      rw [hl] at hs
      cases hs
  · rename_i hs
    cases hl : inner.lookup k with
    | some w =>
      rw [hl] at hs
      exact absurd rfl hs
    | none =>
      rw [List.lookup_append, hl]
      rw [List.lookup_cons]
      rw [beq_self_eq_true]
      rfl

theorem innerAdd_lookup_ne (inner : Bucket) {k k' : String} (v : String)
    (hne : k' ≠ k) : (innerAdd inner k v).lookup k' = inner.lookup k' := by
  unfold innerAdd
  split
  · have hm := lookup_map_ite_ne inner (fun x => x ++ v) hne
    try dsimp only at hm
    rw [hm]
  · rw [List.lookup_append]
    have : (k' == k) = false := beq_eq_false_iff_ne.mpr hne
    rw [List.lookup_cons, this]
    cases inner.lookup k' <;> rfl

/-- C4: for every report-period text, `extract_dates_from_range` raises the
match-count error (the spec's `MalformedDateRangeError`) if and only if the
number of `\b\d{1,2}/\d{1,2}/\d{4}\b` substrings found in the text is not
exactly two; with exactly two matches the match-count check never raises
(any later failure is a different error, from `strptime` or date
overflow). -/
theorem extract_dates_badCount_iff_not_two_matches (s : String) :
    extract_dates_from_range s.data = Except.error Err.badCount ↔
      (findall s.data).length ≠ 2 := by
  unfold extract_dates_from_range
  cases h : findall s.data with
  | nil => simp
  | cons a t =>
    cases t with
    | nil => simp
    | cons b t2 =>
      cases t2 with
      | nil =>
        simp only [List.length_cons, List.length_nil]
        cases hp1 : parseDate a with
        | none => simp
        | some d1 =>
          cases hp2 : parseDate b with
          | none => simp
          | some d2 =>
            dsimp only
            cases hrec : dateRangeLoop d2 d1 with
            | ok l => simp
            | error e =>
              have hnb := dateRangeLoop_not_badCount d2 d1
              rw [hrec] at hnb
              have hne : e ≠ Err.badCount := fun he => hnb (by rw [he])
              simp [hne]
      | cons c t3 => simp

/-- C10: for every report-period text with exactly two date substrings whose
first date is strictly after the second, `extract_dates_from_range` returns
the empty date set without raising: the `while current <= end` loop never
runs. -/
theorem extract_dates_empty_when_start_after_end (s : String)
    (m1 m2 : List Char) (d1 d2 : Date)
    (hf : findall s.data = [m1, m2]) (hp1 : parseDate m1 = some d1)
    (hp2 : parseDate m2 = some d2) (hlt : dateLt d2 d1) :
    extract_dates_from_range s.data = Except.ok (∅ : Finset String) := by
  unfold extract_dates_from_range
  rw [hf]
  dsimp only
  rw [hp1, hp2]
  dsimp only
  have hnle : ¬ dateLe d1 d2 := not_dateLe_iff_dateLt.mpr hlt
  rw [dateRangeLoop_eq]
  rw [if_neg hnle]
  dsimp only
  simp

/-- C10 witness: the concrete reversed range "12/28/2023 - 11/28/2023"
produces the empty set. -/
theorem extract_dates_empty_when_start_after_end_witness :
    extract_dates_from_range (("Report Period: 12/28/2023 - 11/28/2023").data) =
      Except.ok (∅ : Finset String) :=
  extract_dates_empty_when_start_after_end
    ("Report Period: 12/28/2023 - 11/28/2023")
    (("12/28/2023").data) (("11/28/2023").data)
    ⟨2023, 12, 28⟩ ⟨2023, 11, 28⟩
    (by decide) (by decide) (by decide) (by decide)

/-- C5: whenever the report-period text has exactly two date substrings,
both parse, start ≤ end, and the extraction returns a date set (no
overflow), that set has exactly `end - start + 1` elements (day difference
of Python date ordinals plus one) and contains the renderings of both
boundary dates; being a `Finset` of renderings of distinct days, it has no
duplicates — the cardinality equality shows no two days collapse. -/
theorem extract_dates_range_card_mem (s : String) (m1 m2 : List Char)
    (d1 d2 : Date) (ds : Finset String)
    (hf : findall s.data = [m1, m2]) (hp1 : parseDate m1 = some d1)
    (hp2 : parseDate m2 = some d2) (hle : dateLe d1 d2)
    (hok : extract_dates_from_range s.data = Except.ok ds) :
    ds.card = toOrdinal d2 - toOrdinal d1 + 1 ∧ render d1 ∈ ds ∧ render d2 ∈ ds := by
  have hv1 := parseDate_valid hp1
  have hv2 := parseDate_valid hp2
  unfold extract_dates_from_range at hok
  rw [hf] at hok
  dsimp only at hok
  rw [hp1, hp2] at hok
  dsimp only at hok
  cases hrec : dateRangeLoop d2 d1 with
  | error e =>
    rw [hrec] at hok
    cases hok
  | ok l =>
    rw [hrec] at hok
    dsimp only at hok
    have hds : (l.map render).toFinset = ds := by injection hok
    obtain ⟨hlen, hmem, hnd, hin⟩ := dateRangeLoop_spec hv2 d1 hv1 l hrec
    obtain ⟨hd1in, hd2in⟩ := hin hle
    have hord := (dateLe_iff_toOrdinal hv1 hv2).mp hle
    have hmapnd : (l.map render).Nodup := by
      refine List.Nodup.map_on ?_ hnd
      intro x hx y hy hxy
      exact render_inj (hmem x hx).1 (hmem y hy).1 hxy
    refine ⟨?_, ?_, ?_⟩
    · rw [← hds, List.toFinset_card_of_nodup hmapnd, List.length_map]
      omega
    · rw [← hds, List.mem_toFinset]
      exact List.mem_map_of_mem render hd1in
    · rw [← hds, List.mem_toFinset]
      exact List.mem_map_of_mem render hd2in

/-- C8: `extract_eng_circuit` returns, for each of the three vocabularies
independently, the empty string when the comment contains no match of that
vocabulary, and the unique term when it contains exactly one match (a
match of the `ENG-\d+` pattern, respectively of the word-boundary-guarded
alternation patterns); in particular a comment with no term from any
vocabulary yields three empty strings, and one with exactly one term from
each yields exactly those three terms. -/
theorem extract_eng_circuit_vocab (s e a c : List Char)
    (he : (engTermsIn s = [] ∧ e = []) ∨ engTermsIn s = [e])
    (ha : (vocabTermsIn actionAlts s = [] ∧ a = []) ∨ vocabTermsIn actionAlts s = [a])
    (hc : (vocabTermsIn circuitAlts s = [] ∧ c = []) ∨ vocabTermsIn circuitAlts s = [c]) :
    extract_eng_circuit s = (e, a, c) := by
  unfold extract_eng_circuit
  rcases he with ⟨h1, rfl⟩ | h1 <;> rcases ha with ⟨h2, rfl⟩ | h2 <;>
    rcases hc with ⟨h3, rfl⟩ | h3 <;> rw [h1, h2, h3] <;> rfl

/-- C8 witness: a comment with no vocabulary terms yields three empty
strings, and "ENG-12 INSTALL FIA" yields exactly its three terms. -/
theorem extract_eng_circuit_vocab_witness :
    extract_eng_circuit (("no vocab words at all").data) = ([], [], []) ∧
      extract_eng_circuit (("ENG-12 INSTALL FIA").data) =
        (("ENG-12").data, ("INSTALL").data, ("FIA").data) :=
  ⟨extract_eng_circuit_vocab _ _ _ _ (Or.inl (by decide)) (Or.inl (by decide))
      (Or.inl (by decide)),
    extract_eng_circuit_vocab _ _ _ _ (Or.inr (by decide)) (Or.inr (by decide))
      (Or.inr (by decide))⟩

/-- C3 counterexample: the claim says every per-job text block ends with a
trailing line break; in fact a block ends with the raw timeslot text —
here its last character is 'M', not a newline or carriage return. -/
theorem jobBlock_no_trailing_newline :
    (jobBlock ⟨"7", "5 Main St", DateField.dt ⟨2023, 11, 28⟩,
        "9:00 AM - 11:00 AM", "ENG-1 INSTALL FIA"⟩).data.getLast? = some 'M' ∧
      ('M' : Char) ≠ '\n' ∧ ('M' : Char) ≠ '\r' :=
  ⟨by decide, by decide, by decide⟩

/-- C3 amended: a per-job block `f"{eng}\r\n{action} {circuit} {addr}\r\n
 {timeslot}"` ends with the last character of its timeslot text, not with a
line break, so two blocks concatenated into one bucket run together unless
the first timeslot happens to end in a line break. -/
theorem jobBlock_ends_with_timeslot (r : Row) (hts : r.timeslot ≠ "") :
    (jobBlock r).data.getLast? = r.timeslot.data.getLast? := by
  unfold jobBlock
  simp only [String.data_append]
  have hne : r.timeslot.data ≠ [] := by
    intro hd
    apply hts
    have h2 : r.timeslot = String.mk r.timeslot.data := rfl
    rw [hd] at h2
    exact h2
  cases hg : r.timeslot.data.getLast? with
  | none => exact absurd (List.getLast?_eq_none_iff.mp hg) hne
  | some x =>
    rw [List.getLast?_append, hg]
    rfl

/-- C3 amended witness: on a concrete row the block ends with the
timeslot's final character. -/
theorem jobBlock_ends_with_timeslot_witness :
    (jobBlock ⟨"7", "5 Main St", DateField.dt ⟨2023, 11, 28⟩,
        "9:00 AM - 11:00 AM", "ENG-1 INSTALL FIA"⟩).data.getLast? =
      ("9:00 AM - 11:00 AM").data.getLast? :=
  jobBlock_ends_with_timeslot
    ⟨"7", "5 Main St", DateField.dt ⟨2023, 11, 28⟩,
      "9:00 AM - 11:00 AM", "ENG-1 INSTALL FIA"⟩ (by decide)

/-- C6: when two job records resolve to the same technician and the same
slot header that is already a key of the technician's bucket, processing
the second record appends its job block to the bucket's current value
(lines 97-98), so the cell ends up holding the first block followed by the
second rather than being overwritten. -/
theorem processRow_appends_same_slot (headers2 : List String) (tj : TechJobs) (r : Row) (t h v : String)
    (ht : r.techNum = t) (hh : dateHeaderOf r = h)
    (hb : lookupBucket tj t h = some v) :
    lookupBucket (processRow headers2 tj r) t h = some (v ++ jobBlock r) := by
  subst ht
  subst hh
  unfold lookupBucket at hb ⊢
  cases hlt : tj.lookup r.techNum with
  | none =>
    rw [hlt] at hb
    cases hb
  | some inner =>
    rw [hlt] at hb
    try dsimp only at hb
    unfold processRow
    rw [hlt]
    try dsimp only
    rw [show (if (some inner).isSome = true then tj
          else tj ++ [(r.techNum, innerInit headers2)]) = tj from rfl]
    have hm := lookup_map_ite tj r.techNum
      (fun b => innerAdd b (dateHeaderOf r) (jobBlock r))
    try dsimp only at hm
    rw [hm, hlt]
    simp only [Option.map_some']
    try dsimp only
    rw [innerAdd_lookup_self, hb]

/-- C7: a job record whose computed "{date} {period}" header is not one
of the schema slot headers neither fails nor reaches the output: line 100
stores its block under the non-schema key at the end of the bucket, and
the projection of lines 103-105, which reads only schema keys, emits the
technician's row with every schema cell still empty. -/
theorem nonschema_header_stored_but_dropped (techInfo : List (String × String)) (headers2 : List String) (r : Row)
    (hnm : dateHeaderOf r ∉ headers2) :
    lookupBucket (buildTechJobs headers2 [r]) r.techNum (dateHeaderOf r) =
        some (jobBlock r) ∧
      (buildTechJobs headers2 [r]).map (projectRow techInfo headers2) =
        [((techInfo.lookup r.techNum).getD ("Unknown Tech")) :: r.techNum ::
          headers2.map (fun _ => (""))] := by
  have hbt : buildTechJobs headers2 [r] =
      [(r.techNum, innerAdd (innerInit headers2) (dateHeaderOf r) (jobBlock r))] := by
    unfold buildTechJobs
    simp only [List.foldl_cons, List.foldl_nil]
    unfold processRow
    have h1 : (([] : TechJobs).lookup r.techNum) = none := rfl
    rw [h1]
    rw [show (if (none : Option Bucket).isSome = true then ([] : TechJobs)
          else [] ++ [(r.techNum, innerInit headers2)]) =
        [(r.techNum, innerInit headers2)] from rfl]
    simp only [List.map_cons, List.map_nil, eq_self_iff_true, if_true]
  have hinner : ∀ hh ∈ headers2,
      (innerAdd (innerInit headers2) (dateHeaderOf r) (jobBlock r)).lookup hh =
        some ("") := by
    intro hh hmem
    have hne : hh ≠ dateHeaderOf r := fun he => hnm (he ▸ hmem)
    rw [innerAdd_lookup_ne _ _ hne]
    exact lookup_innerInit_mem hmem
  constructor
  · rw [hbt]
    unfold lookupBucket
    rw [List.lookup_cons]
    rw [beq_self_eq_true]
    try dsimp only
    rw [innerAdd_lookup_self]
    rw [lookup_innerInit_not_mem hnm]
  · rw [hbt]
    simp only [List.map_cons, List.map_nil]
    unfold projectRow
    refine congrArg (fun x => [x]) ?_
    refine congrArg (fun x => _ :: _ :: x) ?_
    refine List.map_congr_left ?_
    intro hh hmem
    rw [hinner hh hmem]
    rfl

/-- C9: a technician id absent from the external `tech_info` lookup table
never causes a failure; its output row's display name is the sentinel
"Unknown Tech" (line 104's `.get(tech_num, 'Unknown Tech')`). -/
theorem project_unknown_tech (techInfo : List (String × String)) (headers2 : List String)
    (rows : List Row) (t : String) (out : List String)
    (hnl : techInfo.lookup t = none)
    (hmem : out ∈ (buildTechJobs headers2 rows).map (projectRow techInfo headers2))
    (hid : out[1]? = some t) : out[0]? = some ("Unknown Tech") := by
  obtain ⟨p, hp, rfl⟩ := List.mem_map.mp hmem
  unfold projectRow at hid ⊢
  simp only [List.getElem?_cons_succ, List.getElem?_cons_zero,
    Option.some.injEq] at hid ⊢
  subst hid
  rw [hnl]
  rfl

/-- C2 amended: `process_rows` raises no error for any data row — in
particular none for a row whose date field is not a datetime and not a
parseable date string (line 87 uses a non-datetime `row[5]` as-is, without
parsing or validation).  The run fails exactly when the report-period cell
extraction fails, independently of the data rows. -/
theorem process_rows_ok_iff_extract_ok (techInfo : List (String × String)) (a7 : String)
    (rows : List Row) :
    (process_rows techInfo a7 rows).isOk =
      (extract_dates_from_range a7.data).isOk := by
  unfold process_rows
  cases extract_dates_from_range a7.data <;> rfl

/-- C1 amended: `create_headers` emits the two identity labels followed by
the "{date} Morning"/"{date} Afternoon" pair for each date, with the dates
in ascending lexicographic order of their `%m/%d/%Y` strings (Python
`sorted` on strings).  Within one calendar year this coincides with
chronological order, but across a year boundary it does not (see the C1
counterexample). -/
theorem create_headers_sorted_lex (dates : Finset String) :
    ∃ ds : List String, List.Sorted (fun x y => x ≤ y) ds ∧ ds.toFinset = dates ∧
      create_headers dates = ("Name") :: ("Tech #") ::
        ds.flatMap (fun d => [d ++ (" Morning"), d ++ (" Afternoon")]) :=
  ⟨dates.sort (fun x y => x ≤ y), Finset.sort_sorted _ _, Finset.sort_toFinset _ _, rfl⟩

/-- C1 counterexample: the header builder sorts the *strings* of the date
set, so for a set spanning a year boundary the later date 01/02/2024 sorts
before the earlier date 12/28/2023 (lexicographically "0" < "1"), and its
label pair appears first — the dates are not in ascending chronological
order even though 12/28/2023 is the chronologically smaller date. -/
theorem create_headers_not_chronological :
    create_headers {"12/28/2023", "01/02/2024"} =
      ["Name", "Tech #", "01/02/2024 Morning", "01/02/2024 Afternoon",
        "12/28/2023 Morning", "12/28/2023 Afternoon"] ∧
      parseDate (("12/28/2023").data) = some ⟨2023, 12, 28⟩ ∧
      parseDate (("01/02/2024").data) = some ⟨2024, 1, 2⟩ ∧
      dateLt ⟨2023, 12, 28⟩ ⟨2024, 1, 2⟩ := by
  refine ⟨?_, by decide, by decide, by decide⟩
  have hsort : ({"12/28/2023", "01/02/2024"} : Finset String).sort
      (fun x y => x ≤ y) = ["01/02/2024", "12/28/2023"] := by
    rw [Finset.pair_comm]
    rw [Finset.sort_insert]
    · rw [Finset.sort_singleton]
    · intro b hb
      rw [Finset.mem_singleton] at hb
      subst hb
      rw [String.le_iff_toList_le]
      decide
    · rw [Finset.mem_singleton]
      intro hc
      exact absurd hc (by decide)
  unfold create_headers
  rw [hsort]
  decide

theorem extract_dates_concrete_empty :
    extract_dates_from_range (("Report Period: 11/29/2023 - 11/28/2023").data) =
      Except.ok (∅ : Finset String) := by
  refine congrArg Except.ok ?_
  decide

/-- C2 counterexample: a data row whose date field is the non-date,
non-parseable string "not a date" does not abort the run: `process_rows`
completes normally (the raw value is used as the date string, its
"not a date Morning" key is outside the schema, and the row's technician
still gets an output row with empty slot cells).  No `InvalidRecordError`
exists in the code. -/
theorem process_rows_bad_date_no_error :
    process_rows [] ("Report Period: 11/29/2023 - 11/28/2023")
      [⟨"7", "addr", DateField.raw ("not a date"), "9:00 AM", "note"⟩] =
      Except.ok [["Name", "Tech #"], ["Unknown Tech", "7"]] := by
  have hhead : create_headers (∅ : Finset String) = ["Name", "Tech #"] := by
    unfold create_headers
    rw [Finset.sort_empty]
    rfl
  unfold process_rows
  rw [extract_dates_concrete_empty]
  dsimp only
  rw [hhead]
  refine congrArg Except.ok ?_
  decide

theorem extract_dates_concrete_ok :
    extract_dates_from_range (("Report Period: 11/28/2023 - 11/29/2023").data) =
      Except.ok ({"11/28/2023", "11/29/2023"} : Finset String) := by
  refine congrArg Except.ok ?_
  decide

/-- C5 witness: the concrete two-day range 11/28/2023 - 11/29/2023
produces a two-element set containing both boundary renderings. -/
theorem extract_dates_range_card_mem_witness :
    ({"11/28/2023", "11/29/2023"} : Finset String).card =
        toOrdinal ⟨2023, 11, 29⟩ - toOrdinal ⟨2023, 11, 28⟩ + 1 ∧
      render ⟨2023, 11, 28⟩ ∈ ({"11/28/2023", "11/29/2023"} : Finset String) ∧
      render ⟨2023, 11, 29⟩ ∈ ({"11/28/2023", "11/29/2023"} : Finset String) :=
  extract_dates_range_card_mem ("Report Period: 11/28/2023 - 11/29/2023")
    (("11/28/2023").data) (("11/29/2023").data) ⟨2023, 11, 28⟩ ⟨2023, 11, 29⟩
    {"11/28/2023", "11/29/2023"} (by decide) (by decide) (by decide) (by decide)
    extract_dates_concrete_ok

/-- C6 witness: a second job for technician "7" in the already-non-empty
"11/28/2023 Morning" bucket appends to the existing value "X". -/
theorem processRow_appends_same_slot_witness :
    lookupBucket
        (processRow [("11/28/2023 Morning")]
          [(("7"), [(("11/28/2023 Morning"), ("X"))])]
          ⟨"7", "addr", DateField.raw ("11/28/2023"), "9:00 AM", "note"⟩)
        ("7") ("11/28/2023 Morning") =
      some (("X") ++
        jobBlock ⟨"7", "addr", DateField.raw ("11/28/2023"), "9:00 AM", "note"⟩) :=
  processRow_appends_same_slot [("11/28/2023 Morning")]
    [(("7"), [(("11/28/2023 Morning"), ("X"))])]
    ⟨"7", "addr", DateField.raw ("11/28/2023"), "9:00 AM", "note"⟩
    ("7") ("11/28/2023 Morning") ("X") rfl (by decide) (by decide)

/-- C7 witness: a row whose header "x Morning" is outside the schema
["H"] is stored under that non-schema key and projected away. -/
theorem nonschema_header_stored_but_dropped_witness :
    lookupBucket
        (buildTechJobs [("H")] [⟨"7", "a", DateField.raw ("x"), "9:00 AM", "c"⟩])
        ("7") (dateHeaderOf ⟨"7", "a", DateField.raw ("x"), "9:00 AM", "c"⟩) =
        some (jobBlock ⟨"7", "a", DateField.raw ("x"), "9:00 AM", "c"⟩) ∧
      (buildTechJobs [("H")]
          [⟨"7", "a", DateField.raw ("x"), "9:00 AM", "c"⟩]).map
          (projectRow [] [("H")]) =
        [("Unknown Tech") :: ("7") :: [("H")].map (fun _ => (""))] :=
  nonschema_header_stored_but_dropped [] [("H")]
    ⟨"7", "a", DateField.raw ("x"), "9:00 AM", "c"⟩ (by decide)

/-- C9 witness: technician "42" has no entry in an empty lookup table and
its output row's display name is "Unknown Tech". -/
theorem project_unknown_tech_witness :
    (["Unknown Tech", "42"] : List String)[0]? = some ("Unknown Tech") :=
  project_unknown_tech [] [] [⟨"42", "a", DateField.raw ("x"), "9:00 AM", "c"⟩]
    ("42") (["Unknown Tech", "42"]) rfl (by decide) (by decide)
